import Mathlib

/-!
Verification of the broadcaster core of the mixer repository.

The broadcaster implementation (`mixer.broadcaster.common`,
`mixer.broadcaster.client`, the server and room registry) is not present
under `src/`; only its tests (`src/tests/broadcaster/test_server.py`),
its callers (`src/addons/mixer/bl_operators.py`,
`src/blender_client/collection.py`) and the test harness
(`src/tests/process.py`) are.  The definitions below therefore model the
missing broadcaster from the specification, faithful to its words; where
a definition instead embeds code that does exist under `src/`, its doc
comment names the file.
-/

namespace Mixer

/-! ## Wire codec (§4.1) -/

/-- Modelled from the spec: `encode_int` of the missing
`mixer.broadcaster.common` — "integers as 4-byte little-endian". -/
def encode_int (n : Nat) : List Nat :=
  [n % 256, n / 256 % 256, n / 65536 % 256, n / 16777216 % 256]

/-- Modelled from the spec: `decode_int` of the missing
`mixer.broadcaster.common` — reads a 4-byte little-endian integer at
offset `i`, failing when fewer than 4 bytes are available. -/
def decode_int (data : List Nat) (i : Nat) : Option (Nat × Nat) :=
  match data.drop i with
  | b0 :: b1 :: b2 :: b3 :: _ => some (b0 + 256 * b1 + 65536 * b2 + 16777216 * b3, i + 4)
  | _ => none

/-- A Unicode scalar value: what a Python `str` element is, hence what the
UTF-8 encoder of the wire codec accepts. -/
def ValidScalar (c : Nat) : Prop := c < 1114112 ∧ (c < 55296 ∨ 57344 ≤ c)

instance : DecidablePred ValidScalar := fun c => by
  unfold ValidScalar; infer_instance

/-- Modelled from the spec: the UTF-8 encoding of one code point, as
performed by Python's `str.encode()` inside the missing
`mixer.broadcaster.common.encode_string`. -/
def utf8EncodeCp (c : Nat) : List Nat :=
  if c < 128 then [c]
  else if c < 2048 then [192 + c / 64, 128 + c % 64]
  else if c < 65536 then [224 + c / 4096, 128 + c / 64 % 64, 128 + c % 64]
  else [240 + c / 262144, 128 + c / 4096 % 64, 128 + c / 64 % 64, 128 + c % 64]

/-- Whether a byte is a UTF-8 continuation byte. -/
def isCont (b : Nat) : Bool := decide (128 ≤ b) && decide (b < 192)

/-- Modelled from the spec: fuel-indexed UTF-8 decoding of a whole byte
sequence into code points (Python's `bytes.decode()` inside the missing
`mixer.broadcaster.common.decode_string`); rejects malformed, overlong
and surrogate sequences.  One unit of fuel is spent per decoded code
point. -/
def utf8DecodeFuel : Nat → List Nat → Option (List Nat)
  | _, [] => some []
  | 0, _ :: _ => none
  | fuel + 1, b :: rest =>
    if b < 128 then
      (utf8DecodeFuel fuel rest).map (b :: ·)
    else if b < 192 then none
    else if b < 224 then
      match rest with
      | b1 :: rest1 =>
        if isCont b1 then
          let c := (b - 192) * 64 + (b1 - 128)
          if 128 ≤ c then (utf8DecodeFuel fuel rest1).map (c :: ·) else none
        else none
      | [] => none
    else if b < 240 then
      match rest with
      | b1 :: b2 :: rest2 =>
        if isCont b1 && isCont b2 then
          let c := (b - 224) * 4096 + (b1 - 128) * 64 + (b2 - 128)
          if 2048 ≤ c ∧ (c < 55296 ∨ 57344 ≤ c) then
            (utf8DecodeFuel fuel rest2).map (c :: ·)
          else none
        else none
      | _ => none
    else if b < 248 then
      match rest with
      | b1 :: b2 :: b3 :: rest3 =>
        if isCont b1 && isCont b2 && isCont b3 then
          let c := (b - 240) * 262144 + (b1 - 128) * 4096 + (b2 - 128) * 64 + (b3 - 128)
          if 65536 ≤ c ∧ c < 1114112 then
            (utf8DecodeFuel fuel rest3).map (c :: ·)
          else none
        else none
      | _ => none
    else none

/-- UTF-8 encoding of a string (a sequence of code points). -/
def utf8Encode (s : List Nat) : List Nat := (s.map utf8EncodeCp).flatten

/-- UTF-8 decoding of a full byte sequence (each code point consumes at
least one byte, so `l.length` units of fuel always suffice). -/
def utf8Decode (l : List Nat) : Option (List Nat) := utf8DecodeFuel l.length l

/-- Modelled from the spec: `encode_string` of the missing
`mixer.broadcaster.common` — "UTF-8 strings as a 4-byte length prefix
followed by the UTF-8 bytes"; the length prefix counts bytes and is
written before the payload. -/
def encode_string (s : List Nat) : List Nat :=
  encode_int (utf8Encode s).length ++ utf8Encode s

/-- Modelled from the spec: `decode_string` of the missing
`mixer.broadcaster.common` — reads the 4-byte length prefix at offset
`i`, then that many payload bytes, failing (a framing error) when fewer
bytes than the declared length are available. -/
def decode_string (data : List Nat) (i : Nat) : Option (List Nat × Nat) :=
  match decode_int data i with
  | none => none
  | some (len, j) =>
    let bytes := (data.drop j).take len
    if bytes.length = len then
      match utf8Decode bytes with
      | some s => some (s, j + len)
      | none => none
    else none

/-- From `src/tests/process.py`, `BlenderServer.send_string` (lines
256-262): the bytes put on the wire are `encode_int (len buffer)`
followed by `buffer`, in this order. -/
def send_string_wire (buffer : List Nat) : List Nat :=
  encode_int buffer.length ++ buffer

end Mixer

namespace Mixer

/-! ## Command and message types (§3) -/

/-- Modelled from the spec: the `MessageType` closed enumeration of the
missing `mixer.broadcaster.common`, with an open range (`DOMAIN`) for
opaque domain payloads the relay never interprets. -/
inductive MessageType where
  | JOIN_ROOM
  | LEAVE_ROOM
  | CREATE_ROOM
  | DELETE_ROOM
  | CONTENT
  | CLIENT_ID
  | SET_CLIENT_ATTRIBUTES
  | LIST_CLIENTS
  | LIST_ROOMS
  | CLIENT_UPDATE
  | ROOM_UPDATE
  | SEND_ERROR
  | DOMAIN (tag : Nat)
deriving DecidableEq, Repr

/-- Reserved message types the registry intercepts instead of
broadcasting (§4.4: "other than the reserved join/leave/list types"). -/
def MessageType.isReserved : MessageType → Bool
  | .DOMAIN _ => false
  | _ => true

/-- Modelled from the spec: a Command — "a monotonically increasing id, a
message-type tag, and an opaque byte payload" (§3). -/
structure Command where
  id : Nat
  type : MessageType
  payload : List Nat
deriving DecidableEq, Repr

/-- Modelled from the spec: the sender-local monotonically increasing
counter that assigns Command ids (§3). -/
structure Sender where
  counter : Nat
deriving DecidableEq, Repr

/-- Modelled from the spec: constructing one Command on a sender — the id
is the current counter value, which is then incremented. -/
def add_command (s : Sender) (t : MessageType) (payload : List Nat) : Command × Sender :=
  ({ id := s.counter, type := t, payload := payload }, { counter := s.counter + 1 })

/-- Constructing a sequence of Commands on one sender, in order. -/
def add_commands (s : Sender) : List (MessageType × List Nat) → List Command × Sender
  | [] => ([], s)
  | m :: ms =>
    let p := add_command s m.1 m.2
    let q := add_commands p.2 ms
    (p.1 :: q.1, q.2)

/-- Sorting a batch of commands by id, as `network_consumer` in
`src/tests/broadcaster/test_server.py` does with
`received_commands.sort(key=lambda cmd: cmd.id)`. -/
def sortById (l : List Command) : List Command :=
  l.insertionSort (fun a b => a.id ≤ b.id)

/-! ## Room registry (§3, §4.3, §4.4) -/

/-- The join-handshake state machine of a room (§4.3). -/
inductive RoomState where
  | AwaitingContent
  | Joinable
deriving DecidableEq, Repr

/-- Modelled from the spec: a Room of the missing room registry (§3). -/
structure Room where
  name : String
  owner : Nat
  members : List Nat
  joinable : Bool
  state : RoomState
  command_count : Nat
deriving DecidableEq, Repr

/-- A message the registry queues for delivery to one client. -/
inductive ServerMsg where
  | contentRequest (room : String)
  | joinAccepted (room : String)
  | sendError (msg : String)
  | relay (sender : Nat) (cmd : Command)
deriving DecidableEq, Repr

/-- Modelled from the spec: server-side per-connection state — id, ROOM
attribute, and the connection's independent outbound queue (§2, §4.4). -/
structure ClientHandle where
  id : Nat
  room : Option String
  outbox : List ServerMsg
deriving DecidableEq, Repr

/-- Modelled from the spec: the Room Registry, the single piece of
mutable shared state (§5). -/
structure Registry where
  rooms : List Room
  clients : List ClientHandle
deriving DecidableEq, Repr

def Registry.init : Registry := { rooms := [], clients := [] }

def findRoom (s : Registry) (name : String) : Option Room :=
  s.rooms.find? (fun r => r.name == name)

/-- The room a client is currently a member of, if any. -/
def findRoomOfMember (s : Registry) (cid : Nat) : Option Room :=
  s.rooms.find? (fun r => r.members.contains cid)

/-- Enqueue one message on the outbound queue of the client `cid`. -/
def pushMsg (s : Registry) (cid : Nat) (m : ServerMsg) : Registry :=
  { s with clients := s.clients.map fun c =>
      if c.id = cid then { c with outbox := c.outbox ++ [m] } else c }

/-- Set the ROOM attribute of the client `cid`. -/
def setClientRoom (s : Registry) (cid : Nat) (v : Option String) : Registry :=
  { s with clients := s.clients.map fun c =>
      if c.id = cid then { c with room := v } else c }

/-- Modelled from the spec: registering an accepted connection as a
Client Handle (§2). -/
def handleConnect (s : Registry) (cid : Nat) : Registry :=
  if s.clients.any (fun c => c.id == cid) then s
  else { s with clients := s.clients ++ [{ id := cid, room := none, outbox := [] }] }

/-- Modelled from the spec: `JOIN_ROOM` handling of the missing registry
(§4.3 transitions 1, 3, 4 and §7): an unknown name creates the Room in
`AwaitingContent` with the caller as owner and member and sends the
caller the `CONTENT` request; a room still in `AwaitingContent` rejects
the caller with `SEND_ERROR`; joining an already-joined room is a
protocol error; otherwise the caller is added to `members`. -/
def handleJoinRoom (s : Registry) (cid : Nat) (name : String) : Registry :=
  match findRoom s name with
  | none =>
    let r : Room := { name := name, owner := cid, members := [cid], joinable := false,
                      state := .AwaitingContent, command_count := 0 }
    pushMsg (setClientRoom { s with rooms := r :: s.rooms } cid (some name)) cid
      (.contentRequest name)
  | some r =>
    if r.state = .AwaitingContent then
      pushMsg s cid (.sendError "room not joinable yet")
    else if cid ∈ r.members then
      pushMsg s cid (.sendError "join_room: client already joined")
    else
      pushMsg (setClientRoom
        { s with rooms := s.rooms.map fun r2 =>
            if r2.name == name then { r2 with members := r2.members ++ [cid] } else r2 }
        cid (some name)) cid (.joinAccepted name)

/-- Modelled from the spec: receipt of the creator's `CONTENT` reply
(§4.3 transition 2) — the registry marks the Room `Joinable` and sets
`joinable = true`. -/
def handleContent (s : Registry) (cid : Nat) : Registry :=
  { s with rooms := s.rooms.map fun r =>
      if r.owner = cid ∧ r.state = .AwaitingContent ∧ cid ∈ r.members then
        { r with state := .Joinable, joinable := true }
      else r }

/-- Modelled from the spec: `LEAVE_ROOM` (§4.3 transition 5) — the client
is removed from `members`; no content state is discarded and the room is
not auto-deleted. -/
def handleLeaveRoom (s : Registry) (cid : Nat) (name : String) : Registry :=
  match findRoom s name with
  | none => pushMsg s cid (.sendError "leave_room: unknown room")
  | some r =>
    if cid ∈ r.members then
      setClientRoom
        { s with rooms := s.rooms.map fun r2 =>
            if r2.name == name then { r2 with members := r2.members.filter (fun m => m != cid) }
            else r2 }
        cid none
    else pushMsg s cid (.sendError "leave_room: not a member")

/-- Modelled from the spec: `DELETE_ROOM` (§4.3 transition 6, §7) —
succeeds only if `members` is empty; otherwise the protocol error
`RoomNotEmpty` is reported to the offending client via `SEND_ERROR` and
nothing changes. -/
def handleDeleteRoom (s : Registry) (cid : Nat) (name : String) : Registry :=
  match findRoom s name with
  | none => pushMsg s cid (.sendError "delete_room: unknown room")
  | some r =>
    if r.members = [] then
      { s with rooms := s.rooms.filter (fun r2 => !(r2.name == name)) }
    else pushMsg s cid (.sendError "RoomNotEmpty")

/-- Modelled from the spec: broadcast fan-out (§4.4) — a non-reserved
Command from a member of Room R is enqueued on the outbound queue of
every OTHER current member of R, and `command_count` on R increments
once per accepted Command (not per delivery). -/
def handleBroadcast (s : Registry) (cid : Nat) (cmd : Command) : Registry :=
  if cmd.type.isReserved then s
  else
    match findRoomOfMember s cid with
    | none => s
    | some r =>
      { rooms := s.rooms.map fun r2 =>
          if r2.name == r.name then { r2 with command_count := r2.command_count + 1 } else r2,
        clients := s.clients.map fun c =>
          if c.id ≠ cid ∧ c.id ∈ r.members then
            { c with outbox := c.outbox ++ [.relay cid cmd] }
          else c }

/-- Modelled from the spec: disconnection handling (§5, §7) — implicit
leave for every room the client belonged to, no room auto-deletion, and
the Client Handle is destroyed. -/
def handleDisconnect (s : Registry) (cid : Nat) : Registry :=
  { rooms := s.rooms.map fun r => { r with members := r.members.filter (fun m => m != cid) },
    clients := s.clients.filter (fun c => c.id != cid) }

/-- A registry operation; all registry mutations are serialized under a
single mutual-exclusion discipline (§5), so every concurrent execution
is some sequence of these. -/
inductive Op where
  | connect (cid : Nat)
  | join (cid : Nat) (name : String)
  | content (cid : Nat)
  | leave (cid : Nat) (name : String)
  | deleteRoom (cid : Nat) (name : String)
  | broadcast (cid : Nat) (cmd : Command)
  | disconnect (cid : Nat)
deriving DecidableEq, Repr

def applyOp (s : Registry) : Op → Registry
  | .connect cid => handleConnect s cid
  | .join cid name => handleJoinRoom s cid name
  | .content cid => handleContent s cid
  | .leave cid name => handleLeaveRoom s cid name
  | .deleteRoom cid name => handleDeleteRoom s cid name
  | .broadcast cid cmd => handleBroadcast s cid cmd
  | .disconnect cid => handleDisconnect s cid

def run (s : Registry) (ops : List Op) : Registry := ops.foldl applyOp s

/-- A sequence of broadcasts, each given as (sender, command). -/
def broadcastRun (s : Registry) (bs : List (Nat × Command)) : Registry :=
  bs.foldl (fun st p => handleBroadcast st p.1 p.2) s

/-- Total number of `CONTENT` requests for room `name` ever sent to the
clients of the registry. -/
def countContentRequests (s : Registry) (name : String) : Nat :=
  (s.clients.map fun c =>
    (c.outbox.filter (fun m => m == ServerMsg.contentRequest name)).length).sum

/-- The `command_count` of the room registered under `name`. -/
def getCount (s : Registry) (name : String) : Option Nat :=
  (findRoom s name).map Room.command_count

/-! ## Client library (§4.6) -/

/-- Modelled from the spec: the distinguishable failure mode of
`fetch_commands`, named after `ClientDisconnectedException` of the
missing `mixer.broadcaster.common`. -/
inductive FetchError where
  | ClientDisconnectedException
deriving DecidableEq, Repr

/-- Modelled from the spec: the consumer-side Client library state — the
local view of the connection, whether the peer (server process) is still
alive, and the buffered inbound commands (§4.2, §4.6). -/
structure LocalClient where
  id : Nat
  connected : Bool
  peerAlive : Bool
  inbox : List Command
deriving DecidableEq, Repr

/-- Modelled from the spec: `fetchCommands` (§4.6, §7) — on a dead
Connection it raises `ClientDisconnectedException` rather than returning
an empty result, and on first detected I/O failure the Connection
transitions to closed (§4.2). -/
def fetch_commands (c : LocalClient) : Except FetchError (List Command) × LocalClient :=
  if c.connected = false then (.error .ClientDisconnectedException, c)
  else if c.peerAlive = false then
    (.error .ClientDisconnectedException, { c with connected := false })
  else (.ok c.inbox, { c with inbox := [] })

def is_connected (c : LocalClient) : Bool := c.connected

/-- Killing the server process: the peer of the connection dies; the
client's local view is untouched until it next touches the socket. -/
def killServer (c : LocalClient) : LocalClient := { c with peerAlive := false }

/-- A world: the server-side registry together with the consumer-side
client library instances, linked by client id. -/
structure World where
  server : Registry
  locals : List LocalClient
deriving DecidableEq, Repr

/-- Modelled from the spec: `disconnect()` of the missing
`mixer.broadcaster.client.Client` — closing an open connection triggers
server-side disconnect handling (§5); on an already-closed client it is
a no-op, as exercised by `TestServer.test_connect` in
`src/tests/broadcaster/test_server.py`. -/
def World.disconnectClient (w : World) (cid : Nat) : World :=
  match w.locals.find? (fun c => c.id == cid) with
  | none => w
  | some lc =>
    if lc.connected then
      { server := applyOp w.server (.disconnect cid),
        locals := w.locals.map fun c =>
          if c.id = cid then { c with connected := false } else c }
    else w

/-- Number of clients currently registered at the server. -/
def serverClientCount (w : World) : Nat := w.server.clients.length

end Mixer

/-! ## Theorems -/

namespace Mixer

theorem decode_int_encode_int (n : Nat) (rest : List Nat) (h : n < 4294967296) :
    decode_int (encode_int n ++ rest) 0 = some (n, 4) := by
  simp only [encode_int, decode_int, List.cons_append, List.nil_append, List.drop_zero]
  congr 2
  omega

theorem one_le_length_utf8EncodeCp (c : Nat) : 1 ≤ (utf8EncodeCp c).length := by
  unfold utf8EncodeCp
  split_ifs <;> simp

theorem utf8DecodeFuel_encodeCp (fuel c : Nat) (tail : List Nat) (h : ValidScalar c) :
    utf8DecodeFuel (fuel + 1) (utf8EncodeCp c ++ tail)
      = (utf8DecodeFuel fuel tail).map (c :: ·) := by
  obtain ⟨hmax, hsurr⟩ := h
  unfold utf8EncodeCp
  split_ifs with h1 h2 h3
  · -- one byte
    simp only [List.cons_append, List.nil_append, utf8DecodeFuel, if_pos h1,
      List.append_eq]
  · -- two bytes
    have e1 : ¬ (192 + c / 64 < 128) := by omega
    have e2 : ¬ (192 + c / 64 < 192) := by omega
    have e3 : 192 + c / 64 < 224 := by omega
    have e4 : isCont (128 + c % 64) = true := by
      simp only [isCont, Bool.and_eq_true, decide_eq_true_eq]
      omega
    have e5 : (192 + c / 64 - 192) * 64 + (128 + c % 64 - 128) = c := by omega
    simp only [List.cons_append, List.nil_append, utf8DecodeFuel,
      if_neg e1, if_neg e2, if_pos e3, List.append_eq, e4, if_pos, e5]
    rw [if_pos (by omega)]
  · -- three bytes
    have e1 : ¬ (224 + c / 4096 < 128) := by omega
    have e2 : ¬ (224 + c / 4096 < 192) := by omega
    have e3 : ¬ (224 + c / 4096 < 224) := by omega
    have e4 : 224 + c / 4096 < 240 := by omega
    have e5 : (isCont (128 + c / 64 % 64) && isCont (128 + c % 64)) = true := by
      simp only [isCont, Bool.and_eq_true, decide_eq_true_eq]
      omega
    have e6 : (224 + c / 4096 - 224) * 4096 + (128 + c / 64 % 64 - 128) * 64 + (128 + c % 64 - 128) = c := by
      omega
    simp only [List.cons_append, List.nil_append, utf8DecodeFuel,
      if_neg e1, if_neg e2, if_neg e3, if_pos e4, List.append_eq, e5, if_pos, e6]
    rw [if_pos (by omega)]
  · -- four bytes
    have e1 : ¬ (240 + c / 262144 < 128) := by omega
    have e2 : ¬ (240 + c / 262144 < 192) := by omega
    have e3 : ¬ (240 + c / 262144 < 224) := by omega
    have e4 : ¬ (240 + c / 262144 < 240) := by omega
    have e5 : 240 + c / 262144 < 248 := by omega
    have e6 : (isCont (128 + c / 4096 % 64) && isCont (128 + c / 64 % 64) && isCont (128 + c % 64)) = true := by
      simp only [isCont, Bool.and_eq_true, decide_eq_true_eq]
      omega
    have e7 : (240 + c / 262144 - 240) * 262144 + (128 + c / 4096 % 64 - 128) * 4096
        + (128 + c / 64 % 64 - 128) * 64 + (128 + c % 64 - 128) = c := by
      omega
    simp only [List.cons_append, List.nil_append, utf8DecodeFuel,
      if_neg e1, if_neg e2, if_neg e3, if_neg e4, if_pos e5, List.append_eq, e6, if_pos, e7]
    rw [if_pos (by omega)]

theorem utf8DecodeFuel_utf8Encode (s : List Nat) :
    ∀ fuel, (∀ c ∈ s, ValidScalar c) → s.length ≤ fuel →
      utf8DecodeFuel fuel (utf8Encode s) = some s := by
  induction s with
  | nil =>
    intro fuel _ _
    simp [utf8Encode, utf8DecodeFuel]
  | cons c s ih =>
    intro fuel hv hlen
    match fuel with
    | 0 => simp at hlen
    | f + 1 =>
      have hrw : utf8Encode (c :: s) = utf8EncodeCp c ++ utf8Encode s := by
        simp [utf8Encode]
      rw [hrw, utf8DecodeFuel_encodeCp f c _ (hv c (by simp)),
        ih f (fun x hx => hv x (by simp [hx])) (by simpa using hlen)]
      rfl

theorem length_le_length_utf8Encode (s : List Nat) : s.length ≤ (utf8Encode s).length := by
  induction s with
  | nil => simp [utf8Encode]
  | cons c s ih =>
    have hrw : utf8Encode (c :: s) = utf8EncodeCp c ++ utf8Encode s := by simp [utf8Encode]
    rw [hrw]
    simp only [List.length_cons, List.length_append]
    have := one_le_length_utf8EncodeCp c
    omega

theorem utf8Decode_utf8Encode (s : List Nat) (hv : ∀ c ∈ s, ValidScalar c) :
    utf8Decode (utf8Encode s) = some s :=
  utf8DecodeFuel_utf8Encode s _ hv (length_le_length_utf8Encode s)

end Mixer

namespace Mixer

/-- C9: decoding the wire encoding of a string `s` at offset 0 yields `s`
together with the offset just past its encoding (4 length bytes plus the
UTF-8 payload); and the 4-byte length prefix of a frame precedes the
framed payload bytes, both for `encode_string` and for the
`send_string` framing of `src/tests/process.py`. -/
theorem string_codec_roundtrip (s : List Nat) (rest : List Nat)
    (hv : ∀ c ∈ s, ValidScalar c) (hlen : (utf8Encode s).length < 4294967296) :
    decode_string (encode_string s ++ rest) 0 = some (s, 4 + (utf8Encode s).length)
    ∧ (encode_string s).take 4 = encode_int (utf8Encode s).length
    ∧ (encode_string s).drop 4 = utf8Encode s
    ∧ (send_string_wire (utf8Encode s)).take 4 = encode_int (utf8Encode s).length
    ∧ (send_string_wire (utf8Encode s)).drop 4 = utf8Encode s := by
  have h4 : (encode_int (utf8Encode s).length).length = 4 := by
    simp [encode_int]
  refine ⟨?_, ?_, ?_, ?_, ?_⟩
  · rw [encode_string, List.append_assoc, decode_string,
      decode_int_encode_int _ _ hlen]
    dsimp only
    rw [List.drop_left' h4, List.take_left, if_pos rfl, utf8Decode_utf8Encode s hv]
  · rw [encode_string, List.take_left' h4]
  · rw [encode_string, List.drop_left' h4]
  · rw [send_string_wire, List.take_left' (by simp [encode_int])]
  · rw [send_string_wire, List.drop_left' (by simp [encode_int])]

/-- Witness for C9 at the concrete string "hé" (code points 104 and 233). -/
theorem string_codec_roundtrip_witness :
    (∀ c ∈ [104, 233], ValidScalar c)
    ∧ (utf8Encode [104, 233]).length < 4294967296
    ∧ decode_string (encode_string [104, 233] ++ [7, 7]) 0
        = some ([104, 233], 4 + (utf8Encode [104, 233]).length) :=
  ⟨by decide, by decide, (string_codec_roundtrip [104, 233] [7, 7] (by decide) (by decide)).1⟩

end Mixer

namespace Mixer

/-- C4: killing the server process causes a connected client's next
`fetch_commands` to raise `ClientDisconnectedException` rather than
return an empty result, and `is_connected` subsequently reports false. -/
theorem fetch_commands_after_server_kill (c : LocalClient) (h : is_connected c = true) :
    (fetch_commands (killServer c)).1 = .error .ClientDisconnectedException
    ∧ is_connected (fetch_commands (killServer c)).2 = false := by
  simp [fetch_commands, killServer, is_connected] at h ⊢
  simp [h]

/-- Witness for C4 at a concrete connected client. -/
theorem fetch_commands_after_server_kill_witness :
    is_connected ⟨1, true, true, []⟩ = true
    ∧ (fetch_commands (killServer ⟨1, true, true, []⟩)).1
        = .error .ClientDisconnectedException
    ∧ is_connected (fetch_commands (killServer ⟨1, true, true, []⟩)).2 = false :=
  ⟨by decide, (fetch_commands_after_server_kill ⟨1, true, true, []⟩ (by decide)).1,
    (fetch_commands_after_server_kill ⟨1, true, true, []⟩ (by decide)).2⟩

/-- C7: ids of the Commands a sender constructs are strictly increasing
in construction order, and any batch of them (a sublist in send order,
as returned by `fetch_commands`) is left unchanged — i.e. the send order
is restored — by sorting on id. -/
theorem sender_ids_strictly_increasing (s : Sender) (msgs : List (MessageType × List Nat)) :
    ((add_commands s msgs).1.map Command.id).Pairwise (· < ·)
    ∧ ∀ batch, batch.Sublist (add_commands s msgs).1 → sortById batch = batch := by
  have key : ∀ (msgs : List (MessageType × List Nat)) (s : Sender),
      ((add_commands s msgs).1.map Command.id).Pairwise (· < ·)
      ∧ ∀ x ∈ (add_commands s msgs).1, s.counter ≤ x.id := by
    intro msgs
    induction msgs with
    | nil => intro s; simp [add_commands]
    | cons m ms ih =>
      intro s
      obtain ⟨ih1, ih2⟩ := ih { counter := s.counter + 1 }
      constructor
      · simp only [add_commands, add_command, List.map_cons, List.pairwise_cons]
        refine ⟨?_, ih1⟩
        intro b hb
        simp only [List.mem_map] at hb
        obtain ⟨x, hx, rfl⟩ := hb
        have h2 := ih2 x hx
        change s.counter + 1 ≤ x.id at h2
        omega
      · intro x hx
        simp only [add_commands, add_command, List.mem_cons] at hx
        rcases hx with rfl | hx
        · exact Nat.le_refl _
        · have h2 := ih2 x hx
          change s.counter + 1 ≤ x.id at h2
          omega
  refine ⟨(key msgs s).1, ?_⟩
  intro batch hb
  have hpw : (batch.map Command.id).Pairwise (· < ·) :=
    (key msgs s).1.sublist (hb.map Command.id)
  have hsorted : batch.Pairwise (fun a b => a.id ≤ b.id) := by
    have := List.pairwise_map.mp hpw
    exact this.imp (fun h => Nat.le_of_lt h)
  exact List.Sorted.insertionSort_eq hsorted

/-- Witness for C7's second conjunct at a concrete sender and batch. -/
theorem sender_ids_strictly_increasing_witness :
    ((add_commands ⟨5⟩ [(.CONTENT, []), (.DOMAIN 3, [1]), (.DOMAIN 4, [2])]).1.map
        Command.id).Pairwise (· < ·)
    ∧ sortById ((add_commands ⟨5⟩ [(.CONTENT, []), (.DOMAIN 3, [1]), (.DOMAIN 4, [2])]).1.drop 1)
        = (add_commands ⟨5⟩ [(.CONTENT, []), (.DOMAIN 3, [1]), (.DOMAIN 4, [2])]).1.drop 1 :=
  ⟨(sender_ids_strictly_increasing ⟨5⟩ _).1,
    (sender_ids_strictly_increasing ⟨5⟩ _).2 _ (List.drop_sublist 1 _)⟩

/-- `List.find?` only depends on the values of the predicate. -/
theorem find?_pred_congr {α : Type} (p q : α → Bool) (l : List α) (h : ∀ a, p a = q a) :
    l.find? p = l.find? q := by
  induction l with
  | nil => rfl
  | cons a l ih =>
    rw [List.find?_cons, List.find?_cons, h a, ih]

/-- Finding a client by id commutes with an id-preserving update. -/
theorem find?_id_map_update (cid : Nat) (l : List LocalClient)
    (f : LocalClient → LocalClient) (hf : ∀ c, (f c).id = c.id) :
    List.find? (fun c => c.id == cid) (l.map f)
      = (List.find? (fun c => c.id == cid) l).map f := by
  rw [List.find?_map]
  congr 1
  apply find?_pred_congr
  intro c
  simp [Function.comp, hf c]

/-- `disconnect` on a client id the world does not know is a no-op. -/
theorem disconnectClient_of_find_none (w : World) (cid : Nat)
    (hf : w.locals.find? (fun c => c.id == cid) = none) :
    World.disconnectClient w cid = w := by
  unfold World.disconnectClient
  rw [hf]

/-- `disconnect` on an already-disconnected client is a no-op. -/
theorem disconnectClient_of_not_connected (w : World) (cid : Nat) (lc : LocalClient)
    (hf : w.locals.find? (fun c => c.id == cid) = some lc) (hc : lc.connected = false) :
    World.disconnectClient w cid = w := by
  unfold World.disconnectClient
  rw [hf]
  dsimp only
  rw [if_neg (by simp [hc])]

/-- `disconnect` on a connected client closes it locally and performs the
server-side disconnect. -/
theorem disconnectClient_of_connected (w : World) (cid : Nat) (lc : LocalClient)
    (hf : w.locals.find? (fun c => c.id == cid) = some lc) (hc : lc.connected = true) :
    World.disconnectClient w cid =
      { server := applyOp w.server (.disconnect cid),
        locals := w.locals.map fun c =>
          if c.id = cid then { c with connected := false } else c } := by
  unfold World.disconnectClient
  rw [hf]
  dsimp only
  rw [if_pos hc]

/-- After a `disconnect`, the client found under `cid` reports not
connected. -/
theorem find?_after_disconnect (w : World) (cid : Nat) (lc : LocalClient)
    (hfind : (World.disconnectClient w cid).locals.find? (fun c => c.id == cid) = some lc) :
    lc.connected = false := by
  cases hf : w.locals.find? (fun c => c.id == cid) with
  | none =>
    rw [disconnectClient_of_find_none w cid hf, hf] at hfind
    cases hfind
  | some lc0 =>
    by_cases hc : lc0.connected = true
    · rw [disconnectClient_of_connected w cid lc0 hf hc] at hfind
      have hid : lc0.id = cid := by
        have := List.find?_some hf
        simpa using this
      rw [find?_id_map_update cid _ _ (by intro c; by_cases h : c.id = cid <;> simp [h]),
        hf] at hfind
      simp only [Option.map_some'] at hfind
      rw [if_pos hid] at hfind
      cases hfind
      rfl
    · rw [disconnectClient_of_not_connected w cid lc0 hf (Bool.not_eq_true _ ▸ hc), hf] at hfind
      cases hfind
      exact Bool.not_eq_true _ ▸ hc

/-- C10: `disconnect()` is idempotent — a second disconnect of the same
client changes nothing at all (so no other client's connection state and
no server count is affected), the client reports not connected after a
disconnect, and a disconnect of an already-disconnected client is a
no-op on the whole world. -/
theorem disconnect_idempotent (w : World) (cid : Nat) :
    World.disconnectClient (World.disconnectClient w cid) cid = World.disconnectClient w cid
    ∧ (∀ lc, (World.disconnectClient w cid).locals.find? (fun c => c.id == cid) = some lc →
        lc.connected = false)
    ∧ (∀ lc, w.locals.find? (fun c => c.id == cid) = some lc → lc.connected = false →
        World.disconnectClient w cid = w) := by
  refine ⟨?_, fun lc h => find?_after_disconnect w cid lc h,
    fun lc hf hc => disconnectClient_of_not_connected w cid lc hf hc⟩
  cases hf2 : (World.disconnectClient w cid).locals.find? (fun c => c.id == cid) with
  | none => exact disconnectClient_of_find_none _ cid hf2
  | some lc1 =>
    exact disconnectClient_of_not_connected _ cid lc1 hf2 (find?_after_disconnect w cid lc1 hf2)

/-- Witness for C10: a disconnect of an already-disconnected client in a
concrete world is a no-op. -/
theorem disconnect_idempotent_witness :
    World.disconnectClient
        { server := { rooms := [], clients := [{ id := 1, room := none, outbox := [] }] },
          locals := [{ id := 1, connected := false, peerAlive := true, inbox := [] }] } 1
      = { server := { rooms := [], clients := [{ id := 1, room := none, outbox := [] }] },
          locals := [{ id := 1, connected := false, peerAlive := true, inbox := [] }] } :=
  (disconnect_idempotent
    { server := { rooms := [], clients := [{ id := 1, room := none, outbox := [] }] },
      locals := [{ id := 1, connected := false, peerAlive := true, inbox := [] }] } 1).2.2
    { id := 1, connected := false, peerAlive := true, inbox := [] } (by decide) (by decide)

end Mixer

namespace Mixer

/-- `pushMsg` leaves the rooms untouched. -/
theorem pushMsg_rooms (s : Registry) (cid : Nat) (m : ServerMsg) :
    (pushMsg s cid m).rooms = s.rooms := rfl

/-- `pushMsg` appends the message to the outbound queue of the addressed
client. -/
theorem pushMsg_delivers (s : Registry) (cid : Nat) (m : ServerMsg) :
    ∀ c ∈ s.clients, c.id = cid →
      ∃ c', c' ∈ (pushMsg s cid m).clients ∧ c'.id = cid ∧
        c'.outbox = c.outbox ++ [m] ∧ c'.room = c.room := by
  intro c hc hid
  refine ⟨{ c with outbox := c.outbox ++ [m] }, ?_, hid, rfl, rfl⟩
  simp only [pushMsg, List.mem_map]
  exact ⟨c, hc, by rw [if_pos hid]⟩

/-- `pushMsg` leaves every other client untouched. -/
theorem pushMsg_preserves_other (s : Registry) (cid : Nat) (m : ServerMsg) :
    ∀ c ∈ s.clients, c.id ≠ cid → c ∈ (pushMsg s cid m).clients := by
  intro c hc hne
  simp only [pushMsg, List.mem_map]
  exact ⟨c, hc, by rw [if_neg hne]⟩

/-- `pushMsg` preserves the registered client ids (no connection is
closed or opened). -/
theorem pushMsg_ids (s : Registry) (cid : Nat) (m : ServerMsg) :
    (pushMsg s cid m).clients.map ClientHandle.id = s.clients.map ClientHandle.id := by
  simp only [pushMsg, List.map_map]
  apply List.map_congr_left
  intro c _
  by_cases h : c.id = cid <;> simp [Function.comp, h]

/-- C2: `JOIN_ROOM` on a room still in `AwaitingContent` is rejected with
`SEND_ERROR`: the rooms (hence all member sets) are unchanged, no
pending-join state appears anywhere, the offending client merely
receives the human-readable error on its queue, every other client is
untouched, and the set of open connections is unchanged. -/
theorem join_awaiting_content_rejected (s : Registry) (cid : Nat) (name : String) (r : Room)
    (hfind : findRoom s name = some r) (hstate : r.state = RoomState.AwaitingContent) :
    (handleJoinRoom s cid name).rooms = s.rooms
    ∧ (handleJoinRoom s cid name).clients.map ClientHandle.id = s.clients.map ClientHandle.id
    ∧ (∀ c ∈ s.clients, c.id = cid →
        ∃ c', c' ∈ (handleJoinRoom s cid name).clients ∧ c'.id = cid ∧
          c'.outbox = c.outbox ++ [ServerMsg.sendError "room not joinable yet"] ∧
          c'.room = c.room)
    ∧ (∀ c ∈ s.clients, c.id ≠ cid → c ∈ (handleJoinRoom s cid name).clients) := by
  have heq : handleJoinRoom s cid name = pushMsg s cid (.sendError "room not joinable yet") := by
    unfold handleJoinRoom
    rw [hfind]
    dsimp only
    rw [if_pos hstate]
  rw [heq]
  exact ⟨pushMsg_rooms s cid _, pushMsg_ids s cid _, pushMsg_delivers s cid _,
    pushMsg_preserves_other s cid _⟩

/-- Witness for C2 at a concrete registry: client 2 tries to join a room
whose creator has not yet answered `CONTENT`. -/
theorem join_awaiting_content_rejected_witness :
    (handleJoinRoom
        { rooms := [{ name := "r1", owner := 1, members := [1], joinable := false,
                      state := .AwaitingContent, command_count := 0 }],
          clients := [{ id := 1, room := some "r1", outbox := [] },
                      { id := 2, room := none, outbox := [] }] } 2 "r1").rooms
      = [{ name := "r1", owner := 1, members := [1], joinable := false,
           state := .AwaitingContent, command_count := 0 }] :=
  (join_awaiting_content_rejected _ 2 "r1"
    { name := "r1", owner := 1, members := [1], joinable := false,
      state := .AwaitingContent, command_count := 0 } (by decide) (by decide)).1

/-- C3: `DELETE_ROOM` fails with the `RoomNotEmpty` error while `members`
is non-empty — rooms, member sets and connections all unchanged, the
error delivered to the requester — and succeeds (the room is gone) once
`members` is empty, evicting nobody. -/
theorem delete_room_semantics (s : Registry) (cid : Nat) (name : String) (r : Room)
    (hfind : findRoom s name = some r) :
    (r.members ≠ [] →
      (handleDeleteRoom s cid name).rooms = s.rooms
      ∧ (handleDeleteRoom s cid name).clients.map ClientHandle.id
          = s.clients.map ClientHandle.id
      ∧ (∀ c ∈ s.clients, c.id = cid →
          ∃ c', c' ∈ (handleDeleteRoom s cid name).clients ∧ c'.id = cid ∧
            c'.outbox = c.outbox ++ [ServerMsg.sendError "RoomNotEmpty"] ∧
            c'.room = c.room))
    ∧ (r.members = [] →
      findRoom (handleDeleteRoom s cid name) name = none
      ∧ (handleDeleteRoom s cid name).clients = s.clients) := by
  constructor
  · intro hne
    have heq : handleDeleteRoom s cid name = pushMsg s cid (.sendError "RoomNotEmpty") := by
      unfold handleDeleteRoom
      rw [hfind]
      dsimp only
      rw [if_neg hne]
    rw [heq]
    exact ⟨pushMsg_rooms s cid _, pushMsg_ids s cid _, pushMsg_delivers s cid _⟩
  · intro hemp
    have heq : handleDeleteRoom s cid name
        = { s with rooms := s.rooms.filter (fun r2 => !(r2.name == name)) } := by
      unfold handleDeleteRoom
      rw [hfind]
      dsimp only
      rw [if_pos hemp]
    rw [heq]
    refine ⟨?_, rfl⟩
    simp only [findRoom, List.find?_eq_none]
    intro x hx
    have := List.mem_filter.mp hx
    simp only [Bool.not_eq_true'] at this
    simp [this.2]

/-- Witness for C3 at a concrete registry holding one non-empty and one
empty room. -/
theorem delete_room_semantics_witness :
    ((handleDeleteRoom
        { rooms := [{ name := "full", owner := 1, members := [1], joinable := true,
                      state := .Joinable, command_count := 3 }],
          clients := [{ id := 1, room := some "full", outbox := [] }] } 1 "full").rooms
      = [{ name := "full", owner := 1, members := [1], joinable := true,
           state := .Joinable, command_count := 3 }])
    ∧ findRoom (handleDeleteRoom
        { rooms := [{ name := "empty", owner := 1, members := [], joinable := true,
                      state := .Joinable, command_count := 3 }],
          clients := [{ id := 1, room := none, outbox := [] }] } 1 "empty") "empty" = none :=
  ⟨((delete_room_semantics _ 1 "full"
      { name := "full", owner := 1, members := [1], joinable := true,
        state := .Joinable, command_count := 3 } (by decide)).1 (by decide)).1,
    ((delete_room_semantics _ 1 "empty"
      { name := "empty", owner := 1, members := [], joinable := true,
        state := .Joinable, command_count := 3 } (by decide)).2 (by decide)).1⟩

end Mixer

namespace Mixer

theorem handleConnect_rooms (s : Registry) (cid : Nat) :
    (handleConnect s cid).rooms = s.rooms := by
  unfold handleConnect
  split <;> rfl

theorem setClientRoom_rooms (s : Registry) (cid : Nat) (v : Option String) :
    (setClientRoom s cid v).rooms = s.rooms := rfl

/-- The joinable flag of every room tracks the handshake state machine. -/
def JoinableInv (s : Registry) : Prop :=
  ∀ r ∈ s.rooms, r.joinable = true ↔ r.state = RoomState.Joinable

theorem joinableInv_applyOp (s : Registry) (op : Op) (h : JoinableInv s) :
    JoinableInv (applyOp s op) := by
  cases op with
  | connect cid =>
    intro r hr
    rw [applyOp, handleConnect_rooms] at hr
    exact h r hr
  | join cid name =>
    intro r hr
    rw [applyOp] at hr
    unfold handleJoinRoom at hr
    cases hf : findRoom s name with
    | none =>
      rw [hf] at hr
      simp only [pushMsg_rooms, setClientRoom_rooms] at hr
      rcases List.mem_cons.mp hr with rfl | hr2
      · simp
      · exact h r hr2
    | some r0 =>
      rw [hf] at hr
      dsimp only at hr
      split_ifs at hr with h1 h2
      · exact h r hr
      · exact h r hr
      · simp only [pushMsg_rooms, setClientRoom_rooms, List.mem_map] at hr
        obtain ⟨r2, hr2, rfl⟩ := hr
        by_cases hn : r2.name == name
        · rw [if_pos hn]
          exact h r2 hr2
        · rw [if_neg hn]
          exact h r2 hr2
  | content cid =>
    intro r hr
    rw [applyOp] at hr
    unfold handleContent at hr
    simp only [List.mem_map] at hr
    obtain ⟨r2, hr2, rfl⟩ := hr
    by_cases hc : r2.owner = cid ∧ r2.state = RoomState.AwaitingContent ∧ cid ∈ r2.members
    · rw [if_pos hc]
      simp
    · rw [if_neg hc]
      exact h r2 hr2
  | leave cid name =>
    intro r hr
    rw [applyOp] at hr
    unfold handleLeaveRoom at hr
    cases hf : findRoom s name with
    | none =>
      rw [hf] at hr
      exact h r hr
    | some r0 =>
      rw [hf] at hr
      dsimp only at hr
      split_ifs at hr with h1
      · simp only [setClientRoom_rooms, List.mem_map] at hr
        obtain ⟨r2, hr2, rfl⟩ := hr
        by_cases hn : r2.name == name
        · rw [if_pos hn]
          exact h r2 hr2
        · rw [if_neg hn]
          exact h r2 hr2
      · exact h r hr
  | deleteRoom cid name =>
    intro r hr
    rw [applyOp] at hr
    unfold handleDeleteRoom at hr
    cases hf : findRoom s name with
    | none =>
      rw [hf] at hr
      exact h r hr
    | some r0 =>
      rw [hf] at hr
      dsimp only at hr
      split_ifs at hr with h1
      · exact h r (List.mem_of_mem_filter hr)
      · exact h r hr
  | broadcast cid cmd =>
    intro r hr
    rw [applyOp] at hr
    unfold handleBroadcast at hr
    split_ifs at hr with h1
    · exact h r hr
    · cases hf : findRoomOfMember s cid with
      | none =>
        rw [hf] at hr
        exact h r hr
      | some r0 =>
        rw [hf] at hr
        simp only [List.mem_map] at hr
        obtain ⟨r2, hr2, rfl⟩ := hr
        by_cases hn : r2.name == r0.name
        · rw [if_pos hn]
          exact h r2 hr2
        · rw [if_neg hn]
          exact h r2 hr2
  | disconnect cid =>
    intro r hr
    rw [applyOp] at hr
    unfold handleDisconnect at hr
    simp only [List.mem_map] at hr
    obtain ⟨r2, hr2, rfl⟩ := hr
    exact h r2 hr2

theorem joinableInv_run (s : Registry) (ops : List Op) (h : JoinableInv s) :
    JoinableInv (run s ops) := by
  induction ops generalizing s with
  | nil => exact h
  | cons op ops ih => exact ih _ (joinableInv_applyOp s op h)

end Mixer

namespace Mixer

theorem setClientRoom_mem (s : Registry) (cid : Nat) (v : Option String) :
    ∀ c ∈ s.clients, c.id = cid → { c with room := v } ∈ (setClientRoom s cid v).clients := by
  intro c hc hid
  simp only [setClientRoom, List.mem_map]
  exact ⟨c, hc, by rw [if_pos hid]⟩

theorem newly_joinable_only_by_content (s : Registry) (op : Op) :
    ∀ r', r' ∈ (applyOp s op).rooms → r'.joinable = true →
      (∃ r ∈ s.rooms, r.name = r'.name ∧ r.joinable = true) ∨ op = Op.content r'.owner := by
  intro r' hr hj
  cases op with
  | connect cid =>
    rw [applyOp, handleConnect_rooms] at hr
    exact Or.inl ⟨r', hr, rfl, hj⟩
  | join cid name =>
    rw [applyOp] at hr
    unfold handleJoinRoom at hr
    cases hf : findRoom s name with
    | none =>
      rw [hf] at hr
      simp only [pushMsg_rooms, setClientRoom_rooms] at hr
      rcases List.mem_cons.mp hr with rfl | hr2
      · simp at hj
      · exact Or.inl ⟨r', hr2, rfl, hj⟩
    | some r0 =>
      rw [hf] at hr
      dsimp only at hr
      split_ifs at hr with h1 h2
      · exact Or.inl ⟨r', hr, rfl, hj⟩
      · exact Or.inl ⟨r', hr, rfl, hj⟩
      · simp only [pushMsg_rooms, setClientRoom_rooms, List.mem_map] at hr
        obtain ⟨r2, hr2, rfl⟩ := hr
        by_cases hn : r2.name == name
        · rw [if_pos hn] at hj ⊢
          exact Or.inl ⟨r2, hr2, rfl, hj⟩
        · rw [if_neg hn] at hj ⊢
          exact Or.inl ⟨r2, hr2, rfl, hj⟩
  | content cid =>
    rw [applyOp] at hr
    unfold handleContent at hr
    simp only [List.mem_map] at hr
    obtain ⟨r2, hr2, rfl⟩ := hr
    by_cases hc : r2.owner = cid ∧ r2.state = RoomState.AwaitingContent ∧ cid ∈ r2.members
    · rw [if_pos hc] at hj ⊢
      exact Or.inr (by simp [hc.1])
    · rw [if_neg hc] at hj ⊢
      exact Or.inl ⟨r2, hr2, rfl, hj⟩
  | leave cid name =>
    rw [applyOp] at hr
    unfold handleLeaveRoom at hr
    cases hf : findRoom s name with
    | none =>
      rw [hf] at hr
      exact Or.inl ⟨r', hr, rfl, hj⟩
    | some r0 =>
      rw [hf] at hr
      dsimp only at hr
      split_ifs at hr with h1
      · simp only [setClientRoom_rooms, List.mem_map] at hr
        obtain ⟨r2, hr2, rfl⟩ := hr
        by_cases hn : r2.name == name
        · rw [if_pos hn] at hj ⊢
          exact Or.inl ⟨r2, hr2, rfl, hj⟩
        · rw [if_neg hn] at hj ⊢
          exact Or.inl ⟨r2, hr2, rfl, hj⟩
      · exact Or.inl ⟨r', hr, rfl, hj⟩
  | deleteRoom cid name =>
    rw [applyOp] at hr
    unfold handleDeleteRoom at hr
    cases hf : findRoom s name with
    | none =>
      rw [hf] at hr
      exact Or.inl ⟨r', hr, rfl, hj⟩
    | some r0 =>
      rw [hf] at hr
      dsimp only at hr
      split_ifs at hr with h1
      · exact Or.inl ⟨r', List.mem_of_mem_filter hr, rfl, hj⟩
      · exact Or.inl ⟨r', hr, rfl, hj⟩
  | broadcast cid cmd =>
    rw [applyOp] at hr
    unfold handleBroadcast at hr
    split_ifs at hr with h1
    · exact Or.inl ⟨r', hr, rfl, hj⟩
    · cases hf : findRoomOfMember s cid with
      | none =>
        rw [hf] at hr
        exact Or.inl ⟨r', hr, rfl, hj⟩
      | some r0 =>
        rw [hf] at hr
        simp only [List.mem_map] at hr
        obtain ⟨r2, hr2, rfl⟩ := hr
        by_cases hn : r2.name == r0.name
        · rw [if_pos hn] at hj ⊢
          exact Or.inl ⟨r2, hr2, rfl, hj⟩
        · rw [if_neg hn] at hj ⊢
          exact Or.inl ⟨r2, hr2, rfl, hj⟩
  | disconnect cid =>
    rw [applyOp] at hr
    unfold handleDisconnect at hr
    simp only [List.mem_map] at hr
    obtain ⟨r2, hr2, rfl⟩ := hr
    exact Or.inl ⟨r2, hr2, rfl, hj⟩

/-- C1: in every reachable registry a room is `joinable` iff its
handshake state is `Joinable`; the first `JOIN_ROOM` on an unknown name
creates the room in `AwaitingContent` (not joinable) with the caller as
owner and member and sends the caller the `CONTENT` request; the
creator's `CONTENT` reply marks the room `Joinable` and sets
`joinable = true`; and no operation other than such a `CONTENT` reply
ever makes a room joinable. -/
theorem room_joinable_iff_handshake :
    (∀ ops : List Op, JoinableInv (run Registry.init ops))
    ∧ (∀ s cid name, findRoom s name = none →
        ∃ r, r ∈ (handleJoinRoom s cid name).rooms ∧ r.name = name ∧ r.owner = cid ∧
          cid ∈ r.members ∧ r.state = RoomState.AwaitingContent ∧ r.joinable = false)
    ∧ (∀ s cid name, findRoom s name = none → ∀ c ∈ s.clients, c.id = cid →
        ∃ c', c' ∈ (handleJoinRoom s cid name).clients ∧ c'.id = cid ∧
          c'.outbox = c.outbox ++ [ServerMsg.contentRequest name] ∧ c'.room = some name)
    ∧ (∀ s cid r, r ∈ s.rooms → r.owner = cid → r.state = RoomState.AwaitingContent →
        cid ∈ r.members →
        ∃ r', r' ∈ (handleContent s cid).rooms ∧ r'.name = r.name ∧
          r'.state = RoomState.Joinable ∧ r'.joinable = true)
    ∧ (∀ s op, ∀ r', r' ∈ (applyOp s op).rooms → r'.joinable = true →
        (∃ r ∈ s.rooms, r.name = r'.name ∧ r.joinable = true) ∨ op = Op.content r'.owner) := by
  refine ⟨?_, ?_, ?_, ?_, newly_joinable_only_by_content⟩
  · intro ops
    exact joinableInv_run _ ops (by intro r hr; cases hr)
  · intro s cid name hf
    refine ⟨{ name := name, owner := cid, members := [cid], joinable := false,
              state := .AwaitingContent, command_count := 0 }, ?_, rfl, rfl, by simp, rfl, rfl⟩
    unfold handleJoinRoom
    rw [hf]
    simp only [pushMsg_rooms, setClientRoom_rooms]
    exact List.mem_cons_self _ _
  · intro s cid name hf c hc hid
    have h1 := setClientRoom_mem
      { s with rooms := { name := name, owner := cid, members := [cid], joinable := false,
                          state := .AwaitingContent, command_count := 0 } :: s.rooms }
      cid (some name) c hc hid
    have h2 := pushMsg_delivers _ cid (.contentRequest name) _ h1 hid
    obtain ⟨c', hc', hcid, hout, hroom⟩ := h2
    refine ⟨c', ?_, hcid, hout, hroom⟩
    unfold handleJoinRoom
    rw [hf]
    exact hc'
  · intro s cid r hr howner hstate hmem
    refine ⟨{ r with state := .Joinable, joinable := true }, ?_, rfl, rfl, rfl⟩
    unfold handleContent
    simp only [List.mem_map]
    exact ⟨r, hr, by rw [if_pos ⟨howner, hstate, hmem⟩]⟩

/-- Witness for C1 at a concrete run: client 1 connects, creates a room
by joining it, and answers the `CONTENT` request. -/
theorem room_joinable_iff_handshake_witness :
    JoinableInv (run Registry.init [Op.connect 1, Op.join 1 "r1", Op.content 1])
    ∧ (∃ r, r ∈ (handleJoinRoom (handleConnect Registry.init 1) 1 "r1").rooms ∧
        r.name = "r1" ∧ r.owner = 1 ∧ 1 ∈ r.members ∧
        r.state = RoomState.AwaitingContent ∧ r.joinable = false) :=
  ⟨room_joinable_iff_handshake.1 [Op.connect 1, Op.join 1 "r1", Op.content 1],
    room_joinable_iff_handshake.2.1 (handleConnect Registry.init 1) 1 "r1" (by decide)⟩

end Mixer

namespace Mixer

theorem run_cons (s : Registry) (op : Op) (ops : List Op) :
    run s (op :: ops) = run (applyOp s op) ops := rfl

theorem findRoom_pushMsg (s : Registry) (cid : Nat) (m : ServerMsg) (name : String) :
    findRoom (pushMsg s cid m) name = findRoom s name := rfl

/-- `JOIN_ROOM` on a room still awaiting content reduces to the error
reply. -/
theorem handleJoinRoom_awaiting (s : Registry) (cid : Nat) (name : String) (r : Room)
    (hf : findRoom s name = some r) (hst : r.state = RoomState.AwaitingContent) :
    handleJoinRoom s cid name = pushMsg s cid (.sendError "room not joinable yet") := by
  unfold handleJoinRoom
  rw [hf]
  dsimp only
  rw [if_pos hst]

/-- `JOIN_ROOM` on an unknown name reduces to room creation plus the
`CONTENT` request to the creator. -/
theorem handleJoinRoom_create (s : Registry) (cid : Nat) (name : String)
    (hf : findRoom s name = none) :
    handleJoinRoom s cid name
      = pushMsg (setClientRoom
          { s with rooms := { name := name, owner := cid, members := [cid], joinable := false,
                              state := .AwaitingContent, command_count := 0 } :: s.rooms }
          cid (some name)) cid (.contentRequest name) := by
  unfold handleJoinRoom
  rw [hf]

theorem handleJoinRoom_create_rooms (s : Registry) (cid : Nat) (name : String)
    (hf : findRoom s name = none) :
    (handleJoinRoom s cid name).rooms
      = { name := name, owner := cid, members := [cid], joinable := false,
          state := .AwaitingContent, command_count := 0 } :: s.rooms := by
  rw [handleJoinRoom_create s cid name hf, pushMsg_rooms, setClientRoom_rooms]

/-- `JOIN_ROOM` on an unknown name registers the fresh room. -/
theorem findRoom_after_create (s : Registry) (cid : Nat) (name : String)
    (hf : findRoom s name = none) :
    findRoom (handleJoinRoom s cid name) name
      = some { name := name, owner := cid, members := [cid], joinable := false,
               state := .AwaitingContent, command_count := 0 } := by
  unfold findRoom
  rw [handleJoinRoom_create_rooms s cid name hf, List.find?_cons]
  simp

/-- Per-client count of pending `CONTENT` requests for a room. -/
def crCount (name : String) (c : ClientHandle) : Nat :=
  (c.outbox.filter (fun m => m == ServerMsg.contentRequest name)).length

theorem countContentRequests_eq (s : Registry) (name : String) :
    countContentRequests s name = (s.clients.map (crCount name)).sum := rfl

/-- Pushing anything other than a `CONTENT` request leaves the count of
`CONTENT` requests alone. -/
theorem countContentRequests_pushMsg_ne (s : Registry) (cid : Nat) (m : ServerMsg)
    (name : String) (hm : m ≠ ServerMsg.contentRequest name) :
    countContentRequests (pushMsg s cid m) name = countContentRequests s name := by
  rw [countContentRequests_eq, countContentRequests_eq, pushMsg]
  simp only [List.map_map]
  congr 1
  apply List.map_congr_left
  intro c _
  by_cases h : c.id = cid
  · have hnil : List.filter (fun m2 => m2 == ServerMsg.contentRequest name) [m] = [] := by
      simp [List.filter_cons, hm]
    simp [Function.comp, if_pos h, crCount, List.filter_append, hnil]
  · simp [Function.comp, if_neg h]

theorem countContentRequests_setClientRoom (s : Registry) (cid : Nat) (v : Option String)
    (name : String) :
    countContentRequests (setClientRoom s cid v) name = countContentRequests s name := by
  rw [countContentRequests_eq, countContentRequests_eq, setClientRoom]
  simp only [List.map_map]
  congr 1
  apply List.map_congr_left
  intro c _
  by_cases h : c.id = cid
  · simp [Function.comp, if_pos h, crCount]
  · simp [Function.comp, if_neg h]

theorem setClientRoom_ids (s : Registry) (cid : Nat) (v : Option String) :
    (setClientRoom s cid v).clients.map ClientHandle.id = s.clients.map ClientHandle.id := by
  simp only [setClientRoom, List.map_map]
  apply List.map_congr_left
  intro c _
  by_cases h : c.id = cid <;> simp [Function.comp, h]

theorem crCount_push_list (l : List ClientHandle) (cid : Nat) (name : String)
    (hex : ∃ c ∈ l, c.id = cid)
    (hnodup : (l.map ClientHandle.id).Nodup) :
    ((l.map fun c =>
        if c.id = cid then { c with outbox := c.outbox ++ [ServerMsg.contentRequest name] }
        else c).map (crCount name)).sum
      = (l.map (crCount name)).sum + 1 := by
  induction l with
  | nil => simp at hex
  | cons c l ih =>
    simp only [List.map_cons, List.nodup_cons, List.sum_cons] at hnodup ⊢
    by_cases h : c.id = cid
    · have hnot : ∀ x ∈ l, ¬ (x.id = cid) := by
        intro x hx hxe
        exact hnodup.1 (h ▸ hxe ▸ List.mem_map_of_mem ClientHandle.id hx)
      have htail : (l.map fun c =>
          if c.id = cid then { c with outbox := c.outbox ++ [ServerMsg.contentRequest name] }
          else c) = l := by
        rw [List.map_congr_left (fun x hx => if_neg (hnot x hx))]
        exact List.map_id l
      have hhead : crCount name { c with outbox := c.outbox ++ [ServerMsg.contentRequest name] }
          = crCount name c + 1 := by
        simp [crCount, List.filter_append, List.filter_cons]
      rw [if_pos h, htail, hhead]
      omega
    · obtain ⟨c0, hc0, hid0⟩ := hex
      rcases List.mem_cons.mp hc0 with rfl | hc0t
      · exact absurd hid0 h
      · rw [if_neg h, ih ⟨c0, hc0t, hid0⟩ hnodup.2]
        omega

/-- Pushing a `CONTENT` request to a registered client with a unique id
increments the count of `CONTENT` requests by exactly one. -/
theorem countContentRequests_pushMsg_self (s : Registry) (cid : Nat) (name : String)
    (hex : ∃ c ∈ s.clients, c.id = cid)
    (hnodup : (s.clients.map ClientHandle.id).Nodup) :
    countContentRequests (pushMsg s cid (.contentRequest name)) name
      = countContentRequests s name + 1 := by
  rw [countContentRequests_eq, countContentRequests_eq]
  exact crCount_push_list s.clients cid name hex hnodup

/-- While a room awaits its creator's content, any sequence of further
`JOIN_ROOM` requests on it changes no room and sends no further
`CONTENT` request. -/
theorem joinRun_stalled (cs : List Nat) : ∀ (s : Registry) (name : String) (r : Room),
    findRoom s name = some r → r.state = RoomState.AwaitingContent →
    (run s (cs.map fun c => Op.join c name)).rooms = s.rooms
    ∧ countContentRequests (run s (cs.map fun c => Op.join c name)) name
        = countContentRequests s name := by
  induction cs with
  | nil => exact fun s name r hf hst => ⟨rfl, rfl⟩
  | cons c cs ih =>
    intro s name r hf hst
    have hstep : applyOp s (Op.join c name)
        = pushMsg s c (.sendError "room not joinable yet") :=
      handleJoinRoom_awaiting s c name r hf hst
    rw [List.map_cons, run_cons, hstep]
    obtain ⟨h1, h2⟩ := ih (pushMsg s c (.sendError "room not joinable yet")) name r
      (by rw [findRoom_pushMsg]; exact hf) hst
    refine ⟨by rw [h1, pushMsg_rooms], ?_⟩
    rw [h2, countContentRequests_pushMsg_ne s c _ name (by simp)]

/-- C6: for every interleaving (serialized order) of `JOIN_ROOM` requests
by racing clients against the same unknown room name, exactly one Room
with that name exists afterwards and exactly one `CONTENT` request was
sent. -/
theorem join_race_one_room_one_content (s : Registry) (name : String) (c0 : Nat)
    (cs : List Nat)
    (hf : findRoom s name = none)
    (hex : ∃ c ∈ s.clients, c.id = c0)
    (hnodup : (s.clients.map ClientHandle.id).Nodup) :
    ((run s ((c0 :: cs).map fun c => Op.join c name)).rooms.filter
        (fun r => r.name == name)).length = 1
    ∧ countContentRequests (run s ((c0 :: cs).map fun c => Op.join c name)) name
        = countContentRequests s name + 1 := by
  rw [List.map_cons, run_cons]
  have happ : applyOp s (Op.join c0 name) = handleJoinRoom s c0 name := rfl
  rw [happ]
  obtain ⟨h1, h2⟩ := joinRun_stalled cs (handleJoinRoom s c0 name) name
    _ (findRoom_after_create s c0 name hf) rfl
  constructor
  · rw [h1, handleJoinRoom_create_rooms s c0 name hf, List.filter_cons]
    have hnil : s.rooms.filter (fun r => r.name == name) = [] := by
      rw [List.filter_eq_nil_iff]
      exact (List.find?_eq_none).mp hf
    simp [hnil]
  · rw [h2, handleJoinRoom_create s c0 name hf,
      countContentRequests_pushMsg_self _ c0 name ?_ ?_,
      countContentRequests_setClientRoom]
    · rfl
    · obtain ⟨c, hc, hid⟩ := hex
      exact ⟨{ c with room := some name }, setClientRoom_mem _ c0 (some name) c hc hid, hid⟩
    · rw [setClientRoom_ids]
      exact hnodup

/-- Witness for C6: three clients race to join the same unknown room. -/
theorem join_race_one_room_one_content_witness :
    ((run { rooms := [],
            clients := [{ id := 1, room := none, outbox := [] },
                        { id := 2, room := none, outbox := [] },
                        { id := 3, room := none, outbox := [] }] }
        ([1, 2, 3].map fun c => Op.join c "race")).rooms.filter
        (fun r => r.name == "race")).length = 1 :=
  (join_race_one_room_one_content _ "race" 1 [2, 3] (by decide)
    ⟨{ id := 1, room := none, outbox := [] }, by decide, rfl⟩ (by decide)).1

end Mixer

namespace Mixer

theorem getCount_def (s : Registry) (name : String) :
    getCount s name = (s.rooms.find? (fun r => r.name == name)).map Room.command_count := rfl

theorem getCount_rooms_eq (s' s : Registry) (h : s'.rooms = s.rooms) (name : String) :
    getCount s' name = getCount s name := by
  rw [getCount_def, getCount_def, h]

/-- `find?` commutes with filtering by a predicate implied by the search
predicate. -/
theorem find?_filter_of_imp {α : Type} (p q : α → Bool) (l : List α)
    (h : ∀ a, p a = true → q a = true) :
    (l.filter q).find? p = l.find? p := by
  induction l with
  | nil => rfl
  | cons a l ih =>
    rw [List.filter_cons]
    by_cases hq : q a
    · rw [if_pos hq]
      rw [List.find?_cons, List.find?_cons]
      cases hp : p a
      · exact ih
      · rfl
    · rw [if_neg hq]
      have hp : p a = false := by
        cases hpa : p a
        · rfl
        · exact absurd (h a hpa) hq
      rw [List.find?_cons, hp]
      exact ih

/-- A name-preserving, count-non-decreasing room update keeps the looked
up `command_count` defined and non-decreasing. -/
theorem find?_map_count_mono (rooms : List Room) (g : Room → Room) (name : String) (c : Nat)
    (hname : ∀ r, (g r).name = r.name)
    (hcount : ∀ r, r.command_count ≤ (g r).command_count)
    (h : (rooms.find? (fun r => r.name == name)).map Room.command_count = some c) :
    ∃ c', ((rooms.map g).find? (fun r => r.name == name)).map Room.command_count = some c'
      ∧ c ≤ c' := by
  rw [List.find?_map,
    find?_pred_congr ((fun r => r.name == name) ∘ g) (fun r => r.name == name) rooms
      (fun r => by simp [Function.comp, hname r])]
  cases hf : rooms.find? (fun r => r.name == name) with
  | none => rw [hf] at h; cases h
  | some r =>
    rw [hf] at h
    simp only [Option.map_some'] at h ⊢
    cases h
    exact ⟨(g r).command_count, rfl, hcount r⟩

theorem handleContent_rooms (s : Registry) (cid : Nat) :
    (handleContent s cid).rooms = s.rooms.map (fun r =>
      if r.owner = cid ∧ r.state = .AwaitingContent ∧ cid ∈ r.members then
        { r with state := .Joinable, joinable := true }
      else r) := rfl

theorem handleDisconnect_rooms (s : Registry) (cid : Nat) :
    (handleDisconnect s cid).rooms
      = s.rooms.map (fun r => { r with members := r.members.filter (fun m => m != cid) }) := rfl

/-- No single registry operation other than deleting the room itself
ever decreases its `command_count`. -/
theorem getCount_mono_applyOp (s : Registry) (op : Op) (name : String) (c : Nat)
    (h : getCount s name = some c)
    (hdel : ∀ cid, op ≠ Op.deleteRoom cid name) :
    ∃ c', getCount (applyOp s op) name = some c' ∧ c ≤ c' := by
  cases op with
  | connect cid =>
    refine ⟨c, ?_, Nat.le_refl c⟩
    show getCount (handleConnect s cid) name = some c
    rw [getCount_rooms_eq _ s (handleConnect_rooms s cid) name]
    exact h
  | join cid name2 =>
    show ∃ c', getCount (handleJoinRoom s cid name2) name = some c' ∧ c ≤ c'
    cases hf : findRoom s name2 with
    | none =>
      have hne : ¬ (name2 = name) := by
        intro he
        subst he
        rw [getCount_def] at h
        unfold findRoom at hf
        rw [hf] at h
        cases h
      refine ⟨c, ?_, Nat.le_refl c⟩
      rw [getCount_def, handleJoinRoom_create_rooms s cid name2 hf,
        List.find?_cons_of_neg _ (by simp [hne])]
      exact h
    | some r0 =>
      unfold handleJoinRoom
      rw [hf]
      dsimp only
      split_ifs with h1 h2
      · exact ⟨c, by rw [getCount_rooms_eq _ s (pushMsg_rooms s cid _) name]; exact h,
          Nat.le_refl c⟩
      · exact ⟨c, by rw [getCount_rooms_eq _ s (pushMsg_rooms s cid _) name]; exact h,
          Nat.le_refl c⟩
      · rw [getCount_def]
        simp only [pushMsg_rooms, setClientRoom_rooms]
        apply find?_map_count_mono s.rooms _ name c
        · intro r
          by_cases hh : r.name == name2 <;> simp [hh]
        · intro r
          by_cases hh : r.name == name2 <;> simp [hh]
        · exact h
  | content cid =>
    show ∃ c', getCount (handleContent s cid) name = some c' ∧ c ≤ c'
    rw [getCount_def, handleContent_rooms]
    apply find?_map_count_mono s.rooms _ name c
    · intro r
      by_cases hh : r.owner = cid ∧ r.state = RoomState.AwaitingContent ∧ cid ∈ r.members <;>
        simp [hh]
    · intro r
      by_cases hh : r.owner = cid ∧ r.state = RoomState.AwaitingContent ∧ cid ∈ r.members <;>
        simp [hh]
    · exact h
  | leave cid name2 =>
    show ∃ c', getCount (handleLeaveRoom s cid name2) name = some c' ∧ c ≤ c'
    unfold handleLeaveRoom
    cases hf : findRoom s name2 with
    | none =>
      exact ⟨c, by rw [getCount_rooms_eq _ s (pushMsg_rooms s cid _) name]; exact h,
        Nat.le_refl c⟩
    | some r0 =>
      dsimp only
      split_ifs with h1
      · rw [getCount_def]
        simp only [setClientRoom_rooms]
        apply find?_map_count_mono s.rooms _ name c
        · intro r
          by_cases hh : r.name == name2 <;> simp [hh]
        · intro r
          by_cases hh : r.name == name2 <;> simp [hh]
        · exact h
      · exact ⟨c, by rw [getCount_rooms_eq _ s (pushMsg_rooms s cid _) name]; exact h,
          Nat.le_refl c⟩
  | deleteRoom cid name2 =>
    have hne : ¬ (name2 = name) := fun he => (hdel cid) (by rw [he])
    show ∃ c', getCount (handleDeleteRoom s cid name2) name = some c' ∧ c ≤ c'
    unfold handleDeleteRoom
    cases hf : findRoom s name2 with
    | none =>
      exact ⟨c, by rw [getCount_rooms_eq _ s (pushMsg_rooms s cid _) name]; exact h,
        Nat.le_refl c⟩
    | some r0 =>
      dsimp only
      split_ifs with h1
      · refine ⟨c, ?_, Nat.le_refl c⟩
        rw [getCount_def]
        show ((s.rooms.filter (fun r2 => !(r2.name == name2))).find?
          (fun r => r.name == name)).map Room.command_count = some c
        rw [find?_filter_of_imp (fun r => r.name == name) (fun r2 => !(r2.name == name2))
          s.rooms]
        · exact h
        · intro r hr
          simp only [beq_iff_eq] at hr
          simp only [hr, Bool.not_eq_true', beq_eq_false_iff_ne, ne_eq]
          exact fun he => hne he.symm
      · exact ⟨c, by rw [getCount_rooms_eq _ s (pushMsg_rooms s cid _) name]; exact h,
          Nat.le_refl c⟩
  | broadcast cid cmd =>
    show ∃ c', getCount (handleBroadcast s cid cmd) name = some c' ∧ c ≤ c'
    unfold handleBroadcast
    split_ifs with h1
    · exact ⟨c, h, Nat.le_refl c⟩
    · cases hf : findRoomOfMember s cid with
      | none => exact ⟨c, h, Nat.le_refl c⟩
      | some r0 =>
        rw [getCount_def]
        apply find?_map_count_mono s.rooms _ name c
        · intro r
          by_cases hh : r.name == r0.name <;> simp [hh]
        · intro r
          by_cases hh : r.name == r0.name <;> simp [hh]
        · exact h
  | disconnect cid =>
    show ∃ c', getCount (handleDisconnect s cid) name = some c' ∧ c ≤ c'
    rw [getCount_def, handleDisconnect_rooms]
    apply find?_map_count_mono s.rooms _ name c
    · intro r
      simp
    · intro r
      simp
    · exact h

end Mixer

namespace Mixer

/-- Bumping the count of the rooms of a given name shifts the looked-up
count by one. -/
theorem find?_map_count_bump (rooms : List Room) (name : String) :
    (((rooms.map fun r2 =>
        if r2.name == name then { r2 with command_count := r2.command_count + 1 } else r2).find?
          (fun r2 => r2.name == name)).map Room.command_count)
      = ((rooms.find? (fun r2 => r2.name == name)).map Room.command_count).map (· + 1) := by
  rw [List.find?_map,
    find?_pred_congr _ (fun r2 => r2.name == name) rooms
      (fun r2 => by by_cases hh : r2.name == name <;> simp [Function.comp, hh])]
  cases hfind : rooms.find? (fun r2 => r2.name == name) with
  | none => rfl
  | some r1 =>
    have hp1 := List.find?_some hfind
    simp only [Option.map_some', Option.map_map, Function.comp]
    rw [if_pos hp1]

/-- A broadcast accepted from a member increments the room's
`command_count` by exactly one, however many members receive it. -/
theorem getCount_handleBroadcast (s : Registry) (cid : Nat) (cmd : Command) (r : Room)
    (hres : cmd.type.isReserved = false) (hf : findRoomOfMember s cid = some r) :
    getCount (handleBroadcast s cid cmd) r.name = (getCount s r.name).map (· + 1) := by
  unfold handleBroadcast
  rw [if_neg (by simp [hres]), hf]
  rw [getCount_def, getCount_def]
  dsimp only
  exact find?_map_count_bump s.rooms r.name

theorem getCount_mono_run (ops : List Op) : ∀ (s : Registry) (name : String) (c : Nat),
    getCount s name = some c →
    (∀ op ∈ ops, ∀ cid, op ≠ Op.deleteRoom cid name) →
    ∃ c', getCount (run s ops) name = some c' ∧ c ≤ c' := by
  induction ops with
  | nil => exact fun s name c h _ => ⟨c, h, Nat.le_refl c⟩
  | cons op ops ih =>
    intro s name c h hdel
    obtain ⟨c1, h1, hle1⟩ := getCount_mono_applyOp s op name c h
      (fun cid => hdel op (by simp) cid)
    obtain ⟨c', h', hle'⟩ := ih (applyOp s op) name c1 h1
      (fun op2 hop2 cid => hdel op2 (by simp [hop2]) cid)
    exact ⟨c', by rw [run_cons]; exact h', Nat.le_trans hle1 hle'⟩

/-- C8: a room's `command_count` never decreases over any sequence of
registry operations (as long as the room is not explicitly deleted), and
an accepted broadcast from a member increments it by exactly one —
independent of how many members the command is delivered to, so it is
never a member count. -/
theorem command_count_monotone :
    (∀ (s : Registry) (ops : List Op) (name : String) (c : Nat),
      getCount s name = some c →
      (∀ op ∈ ops, ∀ cid, op ≠ Op.deleteRoom cid name) →
      ∃ c', getCount (run s ops) name = some c' ∧ c ≤ c')
    ∧ (∀ (s : Registry) (cid : Nat) (cmd : Command) (r : Room),
      cmd.type.isReserved = false → findRoomOfMember s cid = some r →
      getCount (handleBroadcast s cid cmd) r.name = (getCount s r.name).map (· + 1)) :=
  ⟨fun s ops name c h hdel => getCount_mono_run ops s name c h hdel,
    getCount_handleBroadcast⟩

/-- Witness for C8: a concrete room at count 5 with two members reaches
exactly count 6 after one broadcast. -/
theorem command_count_monotone_witness :
    (∃ c', getCount (run
        { rooms := [{ name := "w", owner := 1, members := [1, 2], joinable := true,
                      state := .Joinable, command_count := 5 }],
          clients := [{ id := 1, room := some "w", outbox := [] },
                      { id := 2, room := some "w", outbox := [] }] }
        [Op.broadcast 1 { id := 0, type := .DOMAIN 0, payload := [] }]) "w" = some c' ∧ 5 ≤ c')
    ∧ getCount (handleBroadcast
        { rooms := [{ name := "w", owner := 1, members := [1, 2], joinable := true,
                      state := .Joinable, command_count := 5 }],
          clients := [{ id := 1, room := some "w", outbox := [] },
                      { id := 2, room := some "w", outbox := [] }] } 1
        { id := 0, type := .DOMAIN 0, payload := [] }) "w"
      = (getCount
        { rooms := [{ name := "w", owner := 1, members := [1, 2], joinable := true,
                      state := .Joinable, command_count := 5 }],
          clients := [{ id := 1, room := some "w", outbox := [] },
                      { id := 2, room := some "w", outbox := [] }] } "w").map (· + 1) :=
  ⟨command_count_monotone.1 _ _ "w" 5 (by decide)
      (fun op hop cid => by
        simp only [List.mem_singleton] at hop
        subst hop
        exact fun hco => Op.noConfusion hco),
    command_count_monotone.2 _ 1 _
      { name := "w", owner := 1, members := [1, 2], joinable := true,
        state := .Joinable, command_count := 5 } (by decide) (by decide)⟩

end Mixer

namespace Mixer

/-- A broadcast changes no room's name or member set, so who is a member
of what is stable under fan-out. -/
theorem findRoomOfMember_broadcast_proj (s : Registry) (a : Nat) (cmd : Command) (x : Nat) :
    (findRoomOfMember (handleBroadcast s a cmd) x).map (fun r => (r.name, r.members))
      = (findRoomOfMember s x).map (fun r => (r.name, r.members)) := by
  unfold handleBroadcast
  split_ifs with h1
  · rfl
  · cases hf : findRoomOfMember s a with
    | none => rfl
    | some r0 =>
      dsimp only
      unfold findRoomOfMember
      dsimp only
      rw [List.find?_map,
        find?_pred_congr _ (fun r2 => r2.members.contains x) s.rooms
          (fun r2 => by by_cases hh : r2.name == r0.name <;> simp [Function.comp, hh])]
      cases hfind : s.rooms.find? (fun r2 => r2.members.contains x) with
      | none => rfl
      | some r1 =>
        simp only [Option.map_some', Option.map_map, Function.comp]
        by_cases hh : r1.name == r0.name <;> simp [hh]

/-- The clients of the registry after one accepted broadcast. -/
theorem handleBroadcast_clients (s : Registry) (a : Nat) (cmd : Command) (r : Room)
    (hres : cmd.type.isReserved = false) (hf : findRoomOfMember s a = some r) :
    (handleBroadcast s a cmd).clients
      = s.clients.map fun c =>
          if c.id ≠ a ∧ c.id ∈ r.members then
            { c with outbox := c.outbox ++ [ServerMsg.relay a cmd] }
          else c := by
  unfold handleBroadcast
  rw [if_neg (by simp [hres]), hf]

/-- C5: over any serialized sequence of accepted broadcasts inside one
room (senders all members of the room with member set `M`), every
client's queue is extended by exactly the relayed commands of the other
members, in submission order — so every other member receives each
command, per-sender order is preserved at every receiver (the appended
list keeps `bs`'s order, hence each sender's suborder), and a client
outside `M` receives nothing. -/
theorem broadcast_fanout_order (bs : List (Nat × Command)) :
    ∀ (s : Registry) (R : String) (M : List Nat),
    (∀ p ∈ bs, (findRoomOfMember s p.1).map (fun r => (r.name, r.members)) = some (R, M)) →
    (∀ p ∈ bs, p.2.type.isReserved = false) →
    (broadcastRun s bs).clients = s.clients.map fun c =>
      { c with outbox := c.outbox ++
          ((bs.filter fun p => decide (c.id ∈ M) && (p.1 != c.id)).map
            fun p => ServerMsg.relay p.1 p.2) } := by
  induction bs with
  | nil =>
    intro s R M _ _
    show s.clients = _
    refine ((List.map_congr_left fun c hc => ?_).trans (List.map_id s.clients)).symm
    simp
  | cons p bs ih =>
    intro s R M hr hres
    have hp := hr p (List.mem_cons_self p bs)
    obtain ⟨r, hfr, hname, hmems⟩ : ∃ r, findRoomOfMember s p.1 = some r ∧ r.name = R
        ∧ r.members = M := by
      cases hf : findRoomOfMember s p.1 with
      | none => rw [hf] at hp; cases hp
      | some r =>
        rw [hf] at hp
        simp only [Option.map_some', Option.some.injEq, Prod.mk.injEq] at hp
        exact ⟨r, rfl, hp.1, hp.2⟩
    have hr' : ∀ q ∈ bs,
        (findRoomOfMember (handleBroadcast s p.1 p.2) q.1).map (fun r => (r.name, r.members))
          = some (R, M) := by
      intro q hq
      rw [findRoomOfMember_broadcast_proj]
      exact hr q (List.mem_cons_of_mem p hq)
    have hres' : ∀ q ∈ bs, q.2.type.isReserved = false :=
      fun q hq => hres q (List.mem_cons_of_mem p hq)
    have hstep : broadcastRun s (p :: bs) = broadcastRun (handleBroadcast s p.1 p.2) bs := rfl
    rw [hstep, ih (handleBroadcast s p.1 p.2) R M hr' hres',
      handleBroadcast_clients s p.1 p.2 r (hres p (List.mem_cons_self p bs)) hfr,
      List.map_map]
    apply List.map_congr_left
    intro c hc
    simp only [Function.comp]
    by_cases hmem : c.id ∈ M
    · by_cases heq : c.id = p.1
      · simp only [if_neg (show ¬(c.id ≠ p.1 ∧ c.id ∈ r.members) by simp [heq])]
        rw [List.filter_cons, if_neg (by simp [heq])]
      · simp only [if_pos (show c.id ≠ p.1 ∧ c.id ∈ r.members from ⟨heq, hmems ▸ hmem⟩)]
        have hpred : (decide (c.id ∈ M) && (p.1 != c.id)) = true := by
          simp only [Bool.and_eq_true, decide_eq_true_eq, bne_iff_ne, ne_eq]
          exact ⟨hmem, fun he => heq he.symm⟩
        rw [List.filter_cons, if_pos hpred]
        simp [List.append_assoc]
    · simp only [if_neg (show ¬(c.id ≠ p.1 ∧ c.id ∈ r.members) from
        fun h => hmem (hmems ▸ h.2))]
      rw [List.filter_cons, if_neg (by simp [hmem])]

end Mixer

namespace Mixer

/-- Witness for C5: members 1 and 2 broadcast in a room; member 2 and the
sender's own queue and the non-member 3 behave as characterized. -/
theorem broadcast_fanout_order_witness :
    (broadcastRun
        { rooms := [{ name := "w", owner := 1, members := [1, 2], joinable := true,
                      state := .Joinable, command_count := 0 }],
          clients := [{ id := 1, room := some "w", outbox := [] },
                      { id := 2, room := some "w", outbox := [] },
                      { id := 3, room := none, outbox := [] }] }
        [(1, { id := 0, type := .DOMAIN 0, payload := [7] }),
         (2, { id := 0, type := .DOMAIN 1, payload := [8] }),
         (1, { id := 1, type := .DOMAIN 2, payload := [9] })]).clients
      = ({ rooms := [{ name := "w", owner := 1, members := [1, 2], joinable := true,
                       state := .Joinable, command_count := 0 }],
           clients := [{ id := 1, room := some "w", outbox := [] },
                       { id := 2, room := some "w", outbox := [] },
                       { id := 3, room := none, outbox := [] }] } : Registry).clients.map
          fun c =>
            { c with outbox := c.outbox ++
                (([(1, ({ id := 0, type := .DOMAIN 0, payload := [7] } : Command)),
                   (2, { id := 0, type := .DOMAIN 1, payload := [8] }),
                   (1, { id := 1, type := .DOMAIN 2, payload := [9] })].filter
                    fun p => decide (c.id ∈ [1, 2]) && (p.1 != c.id)).map
                  fun p => ServerMsg.relay p.1 p.2) } :=
  broadcast_fanout_order _ _ "w" [1, 2] (by decide) (by decide)

end Mixer
